import Mathlib

/-
Verification of the collection-pool object pool (src/lib.rs, src/sync.rs).

The pool keeps an idle sequence of reusable instances inside a fallible
synchronization wrapper (the `InnerMut` capability, instantiated with
`RefCell<Vec<T>>` or `Mutex<Vec<T>>`).  Exclusive or read-only access to the
wrapped `Vec<T>` may fail (reentrant borrow / poisoned lock); we model each
access attempt by a Boolean oracle `ok` passed to the operation: `ok = true`
means the synchronization primitive grants access, `ok = false` means it
reports an error.  The `Vec<T>` holding the idle instances is modelled as a
`List T` with index 0 the oldest element; `Vec::push` appends at the end and
`Vec::pop` removes the last element.  The `Pooled` handle's `parent`
back-reference is modelled by passing the pool state explicitly to the
operations that use it.
-/

namespace CollectionPool

/-- Error reported when the synchronization wrapper cannot grant access
(reentrant `RefCell` borrow, or a poisoned `Mutex`). -/
inductive AccessError where
  | accessError
deriving DecidableEq

/-- The `Clearable` trait of src/lib.rs: reset to the empty logical state.
Rust's `fn clear(&mut self)` becomes a pure state transformer. -/
class Clearable (T : Type) where
  clear : T → T

/-- Model of Rust's `Vec<α>` as a poolable container: the logical contents
`data` plus the allocated backing `cap`acity.  `Vec::new` has capacity 0. -/
structure RVec (α : Type) where
  data : List α
  cap : Nat
deriving DecidableEq

/-- `Vec::push`: appends; grows the capacity when the length would exceed it. -/
def RVec.push {α : Type} (v : RVec α) (x : α) : RVec α :=
  { data := v.data ++ [x], cap := max v.cap (v.data.length + 1) }

/-- `Vec::clear`: drops the contents, keeps the allocated capacity. -/
def RVec.clear {α : Type} (v : RVec α) : RVec α :=
  { data := [], cap := v.cap }

instance {α : Type} : Clearable (RVec α) := ⟨RVec.clear⟩

instance {α : Type} : Inhabited (RVec α) := ⟨⟨[], 0⟩⟩

/-- State of `Pool<T, M>`: the `vacant` field, the idle sequence held inside
the synchronization wrapper `M`. -/
structure PoolState (T : Type) where
  vacant : List T
deriving DecidableEq

/-- State of a `Pooled<'a, T, M>` handle: the `item` slot.  The slot is
`none` exactly when the instance has been consumed by the drop logic. -/
structure Pooled (T : Type) where
  item : Option T
deriving DecidableEq

/-- One access attempt through the `InnerMut` wrapper (`inner_mut()` /
`inner()`): the oracle `ok` decides whether access is granted. -/
def innerAccess {T : Type} (ok : Bool) (v : List T) : Except AccessError (List T) :=
  match ok with
  | true => Except.ok v
  | false => Except.error AccessError.accessError

/-- Body of `Pool::get`: `self.vacant.inner_mut().ok().and_then(|mut v| v.pop())
.unwrap_or_default()` followed by the defensive `item.clear()`.  Returns the
instance to wrap and the updated pool state. -/
def Pool.getItem {T : Type} [Clearable T] [Inhabited T]
    (p : PoolState T) (ok : Bool) : T × PoolState T :=
  match innerAccess ok p.vacant with
  | Except.ok v => (Clearable.clear (v.getLast?.getD default), ⟨v.dropLast⟩)
  | Except.error _ => (Clearable.clear (default : T), p)

/-- `Pool::get`: always succeeds and wraps the obtained instance in a
`Pooled` handle whose `item` slot is occupied. -/
def Pool.get {T : Type} [Clearable T] [Inhabited T]
    (p : PoolState T) (ok : Bool) : Pooled T × PoolState T :=
  let r := Pool.getItem p ok
  ({ item := some r.1 }, r.2)

/-- `Drop for Pooled`: take the `item` slot (if already empty, do nothing);
clear the instance; on successful exclusive access push it back, otherwise
discard it.  Returns the post-drop handle and pool state. -/
def Pooled.drop {T : Type} [Clearable T]
    (h : Pooled T) (p : PoolState T) (ok : Bool) : Pooled T × PoolState T :=
  match h.item with
  | none => (h, p)
  | some item =>
    let c := Clearable.clear item
    match innerAccess ok p.vacant with
    | Except.ok v => ({ item := none }, ⟨v ++ [c]⟩)
    | Except.error _ => ({ item := none }, p)

/-- The `for _ in 0..count { vacant.push(T::default()) }` loop of
`Pool::prewarm`, one push per iteration. -/
def prewarmLoop {T : Type} [Inhabited T] : Nat → List T → List T
  | 0, v => v
  | n + 1, v => prewarmLoop n (v ++ [(default : T)])

/-- `Pool::prewarm`: acquire exclusive access once (`?` propagates the
error, leaving the pool untouched), then run the push loop. -/
def Pool.prewarm {T : Type} [Inhabited T]
    (p : PoolState T) (count : Nat) (ok : Bool) :
    Except AccessError Unit × PoolState T :=
  match innerAccess ok p.vacant with
  | Except.ok v => (Except.ok (), ⟨prewarmLoop count v⟩)
  | Except.error e => (Except.error e, p)

/-- `Pool::pool_size`: `self.vacant.inner().ok().map(|v| v.len())`. -/
def Pool.pool_size {T : Type} (p : PoolState T) (ok : Bool) : Option Nat :=
  (innerAccess ok p.vacant).toOption.map List.length

/-- A mutation of the wrapped instance through `DerefMut`: only the contents
of the `item` slot change, never its occupancy. -/
def Pooled.modify {T : Type} (h : Pooled T) (f : T → T) : Pooled T :=
  { item := h.item.map f }

/-- `Deref for Pooled` reads the `item` slot; the Rust code unwraps it, which
panics exactly when the slot is `none`. -/
def Pooled.deref {T : Type} (h : Pooled T) : Option T :=
  h.item

/-- Single-threaded interleaving alphabet: check an instance out of the pool
(`Pool::get`), or return the most recently checked-out one (handle drop). -/
inductive PoolOp where
  | checkout
  | ret
deriving DecidableEq

/-- Combined state of a pool together with the instances currently held by
live `Pooled` handles (most recent first). -/
structure SysState (T : Type) where
  pool : PoolState T
  outs : List T
deriving DecidableEq

/-- One interleaving step, with every synchronization access succeeding:
`checkout` runs `Pool::get` and records the handle's instance; `ret` drops
the most recent live handle (no-op when no handle is live). -/
def stepOp {T : Type} [Clearable T] [Inhabited T] : PoolOp → SysState T → SysState T
  | PoolOp.checkout, s =>
    let r := Pool.getItem s.pool true
    { pool := r.2, outs := r.1 :: s.outs }
  | PoolOp.ret, s =>
    match s.outs with
    | [] => s
    | x :: rest => { pool := (Pooled.drop ⟨some x⟩ s.pool true).2, outs := rest }

/-- Run a sequence of interleaving steps. -/
def runOps {T : Type} [Clearable T] [Inhabited T]
    (ops : List PoolOp) (s : SysState T) : SysState T :=
  ops.foldl (fun s op => stepOp op s) s

/-- An interleaving is admissible when every `checkout` finds the idle
sequence non-empty (so it pops rather than default-constructs) and every
`ret` has an outstanding handle to return. -/
def opsAdmissible {T : Type} [Clearable T] [Inhabited T] :
    List PoolOp → SysState T → Bool
  | [], _ => true
  | op :: rest, s =>
    (match op with
     | PoolOp.checkout => !s.pool.vacant.isEmpty
     | PoolOp.ret => !s.outs.isEmpty) && opsAdmissible rest (stepOp op s)

/-- The conserved quantity of the claims: idle count plus checked-out count. -/
def SysState.measureOf {T : Type} (s : SysState T) : Nat :=
  s.pool.vacant.length + s.outs.length

/-- The idle-sequence invariant: every instance physically present in
`vacant` has logical size 0, for a given size observer on `T`. -/
def clearedInv {T : Type} (size : T → Nat) (p : PoolState T) : Bool :=
  p.vacant.all (fun y => size y == 0)

/-- The prewarm loop pushes exactly `count` default-constructed instances at
the end of the idle sequence. -/
theorem prewarmLoop_eq {T : Type} [Inhabited T] (count : Nat) (v : List T) :
    prewarmLoop count v = v ++ List.replicate count (default : T) := by
  induction count generalizing v with
  | zero => simp [prewarmLoop]
  | succ n ih =>
    rw [prewarmLoop, ih, List.replicate_succ]
    simp

/-- Reading the pool size under granted access yields the idle count. -/
theorem pool_size_ok {T : Type} (p : PoolState T) :
    Pool.pool_size p true = some p.vacant.length := rfl

/-- A handle whose slot is occupied keeps an occupied slot under any
sequence of mutations through `DerefMut`. -/
theorem foldl_modify_isSome {T : Type} (fs : List (T → T)) (h : Pooled T)
    (hh : h.item.isSome = true) :
    ((fs.foldl Pooled.modify h).item).isSome = true := by
  induction fs generalizing h with
  | nil => exact hh
  | cons f fs ih =>
    exact ih (Pooled.modify h f) (by
      cases hx : h.item with
      | none => rw [hx] at hh; cases hh
      | some x => simp [Pooled.modify, hx])

/-- C1: `Pool::get` always succeeds: the handle's `item` slot holds exactly
the instance obtained by popping the last idle instance when access succeeds
and the sequence is non-empty, and a fresh default otherwise, cleared once
more before being wrapped — so under any size observer sent to 0 by `clear`,
the returned instance has logical size 0.  The pool keeps the remaining
idle instances when the pop happened and is untouched on access failure;
no synchronization error reaches the caller (the operation is total). -/
theorem get_spec {T : Type} [Clearable T] [Inhabited T]
    (size : T → Nat) (hsize : ∀ x, size (Clearable.clear x) = 0)
    (p : PoolState T) (ok : Bool) :
    ∃ t, (Pool.get p ok).1.item = some t ∧ size t = 0 ∧
      t = Clearable.clear ((if ok then p.vacant.getLast? else none).getD default) ∧
      (Pool.get p ok).2.vacant = (if ok then p.vacant.dropLast else p.vacant) := by
  refine ⟨(Pool.getItem p ok).1, rfl, ?_, ?_, ?_⟩ <;>
    cases ok <;> simp [Pool.get, Pool.getItem, innerAccess, hsize]

/-- Witness for C1 at a concrete pool of one `RVec` instance. -/
theorem get_spec_holds :
    ∃ t, (Pool.get (⟨[⟨[5], 3⟩]⟩ : PoolState (RVec Nat)) true).1.item = some t ∧
      (fun v : RVec Nat => v.data.length) t = 0 ∧
      t = Clearable.clear
        ((if true then ([(⟨[5], 3⟩ : RVec Nat)] : List (RVec Nat)).getLast? else none).getD default) ∧
      (Pool.get (⟨[⟨[5], 3⟩]⟩ : PoolState (RVec Nat)) true).2.vacant =
        (if true then ([(⟨[5], 3⟩ : RVec Nat)] : List (RVec Nat)).dropLast
         else [(⟨[5], 3⟩ : RVec Nat)]) :=
  get_spec (fun v : RVec Nat => v.data.length) (fun _ => rfl) ⟨[⟨[5], 3⟩]⟩ true

/-- C2: dropping a handle whose slot still holds an instance consumes the
slot, clears the instance, pushes it back exactly when exclusive access
succeeds (idle count grows by one) and discards it otherwise, surfacing no
error; and the terminal transition pushes at most once: dropping the
resulting handle again changes nothing. -/
theorem drop_spec {T : Type} [Clearable T] (p : PoolState T) (x : T) (ok : Bool) :
    (Pooled.drop ⟨some x⟩ p ok).1.item = none ∧
    (Pooled.drop ⟨some x⟩ p ok).2.vacant =
      (if ok then p.vacant ++ [Clearable.clear x] else p.vacant) ∧
    (Pooled.drop ⟨some x⟩ p ok).2.vacant.length =
      (if ok then p.vacant.length + 1 else p.vacant.length) ∧
    (∀ ok2, Pooled.drop (Pooled.drop ⟨some x⟩ p ok).1 (Pooled.drop ⟨some x⟩ p ok).2 ok2 =
      ((Pooled.drop ⟨some x⟩ p ok).1, (Pooled.drop ⟨some x⟩ p ok).2)) := by
  cases ok <;> simp [Pooled.drop, innerAccess]

/-- C8: `prewarm` is atomic with respect to failure: on access failure the
error is returned before any push happens and the idle sequence is exactly
as before the call. -/
theorem prewarm_atomic {T : Type} [Inhabited T] (p : PoolState T) (c : Nat) :
    Pool.prewarm p c false = (Except.error AccessError.accessError, p) := rfl

/-- C9: `pool_size` returns the idle-instance count when read access is
granted, and `none` when it is not. -/
theorem pool_size_spec {T : Type} (p : PoolState T) :
    Pool.pool_size p true = some p.vacant.length ∧
    Pool.pool_size p false = none :=
  ⟨rfl, rfl⟩

/-- C10: `prewarm 0` still performs the access attempt: it fails with
`AccessError` when access fails, and on success returns `ok` leaving the
idle sequence unchanged. -/
theorem prewarm_zero {T : Type} [Inhabited T] (p : PoolState T) :
    Pool.prewarm p 0 false = (Except.error AccessError.accessError, p) ∧
    Pool.prewarm p 0 true = (Except.ok (), p) :=
  ⟨rfl, rfl⟩

/-- C3: under the natural laws that `clear` and default-construction yield
size-0 instances, the invariant "every instance in the idle sequence has
logical size 0" is preserved by `get` (it only removes idle instances),
by `prewarm` (it pushes defaults) and by a handle drop (it pushes a cleared
instance), whatever the access outcome. -/
theorem cleared_invariant {T : Type} [Clearable T] [Inhabited T]
    (size : T → Nat) (hclear : ∀ x, size (Clearable.clear x) = 0)
    (hdef : size (default : T) = 0)
    (p : PoolState T) (hp : clearedInv size p = true) :
    (∀ ok, clearedInv size (Pool.get p ok).2 = true) ∧
    (∀ c ok, clearedInv size (Pool.prewarm p c ok).2 = true) ∧
    (∀ h ok, clearedInv size (Pooled.drop h p ok).2 = true) := by
  simp only [clearedInv, List.all_eq_true, beq_iff_eq] at hp ⊢
  refine ⟨?_, ?_, ?_⟩
  · intro ok
    cases ok <;> simp [Pool.get, Pool.getItem, innerAccess]
    · exact hp
    · intro y hy
      exact hp y ((List.dropLast_sublist _).subset hy)
  · intro c ok
    cases ok <;> simp [Pool.prewarm, innerAccess, prewarmLoop_eq]
    · exact hp
    · intro y hy
      rcases hy with hy | ⟨-, hy⟩
      · exact hp y hy
      · rw [hy]
        exact hdef
  · intro h ok
    cases hx : h.item with
    | none => simpa [Pooled.drop, hx] using hp
    | some x =>
      cases ok <;> simp [Pooled.drop, hx, innerAccess]
      · exact hp
      · intro y hy
        rcases hy with hy | hy
        · exact hp y hy
        · rw [hy]
          exact hclear x

/-- Witness for C3 at a concrete pool of one cleared `RVec` instance. -/
theorem cleared_invariant_holds :
    clearedInv (fun v : RVec Nat => v.data.length)
      (Pool.get (⟨[⟨[], 5⟩]⟩ : PoolState (RVec Nat)) true).2 = true :=
  (cleared_invariant (fun v : RVec Nat => v.data.length)
    (fun _ => rfl) rfl ⟨[⟨[], 5⟩]⟩ (by decide)).1 true

/-- C6: every handle produced by `get` has an occupied `item` slot, and the
slot stays occupied under any sequence of mutations through the handle, so
`Deref`/`DerefMut` (which unwrap the slot) never panic during the handle's
lifetime before its drop begins. -/
theorem deref_total {T : Type} [Clearable T] [Inhabited T]
    (p : PoolState T) (ok : Bool) (fs : List (T → T)) :
    (Pooled.deref (fs.foldl Pooled.modify (Pool.get p ok).1)).isSome = true :=
  foldl_modify_isSome fs (Pool.get p ok).1 rfl

/-- The C4 scenario: a pool of `RVec Nat` starting empty. -/
def scenarioPool0 : PoolState (RVec Nat) := ⟨[]⟩

/-- First `get` of the C4 scenario. -/
def scenarioGet1 : Pooled (RVec Nat) × PoolState (RVec Nat) :=
  Pool.get scenarioPool0 true

/-- The borrowed instance after the caller inserts 3 elements. -/
def scenarioHandle : Pooled (RVec Nat) :=
  ((scenarioGet1.1.modify (fun v => v.push 1)).modify
    (fun v => v.push 2)).modify (fun v => v.push 3)

/-- Pool state after the handle drops (access succeeding). -/
def scenarioAfterDrop : PoolState (RVec Nat) :=
  (Pooled.drop scenarioHandle scenarioGet1.2 true).2

/-- C4: round-trip.  Generally: whatever instance `v` a handle holds at drop
time, after the drop (access succeeding) the next `get` yields an instance
of logical size 0 whose capacity is at least `v`'s capacity at drop time.
Concretely: from an empty pool, get / insert 3 elements (capacity grows to
3) / drop leaves `pool_size() = 1`, and the next `get` returns the size-0
instance with that same capacity 3. -/
theorem round_trip (p : PoolState (RVec Nat)) (v : RVec Nat) :
    (∃ w, (Pool.get (Pooled.drop ⟨some v⟩ p true).2 true).1.item = some w ∧
      w.data.length = 0 ∧ v.cap ≤ w.cap) ∧
    Pool.pool_size scenarioAfterDrop true = some 1 ∧
    (Pool.get scenarioAfterDrop true).1.item = some ⟨[], 3⟩ := by
  refine ⟨⟨⟨[], v.cap⟩, ?_, rfl, le_refl _⟩, by decide, by decide⟩
  simp [Pool.get, Pool.getItem, Pooled.drop, innerAccess, List.getLast?_concat,
    Clearable.clear, RVec.clear]

/-- Running a step sequence splits at an append. -/
theorem runOps_append {T : Type} [Clearable T] [Inhabited T]
    (a b : List PoolOp) (s : SysState T) :
    runOps (a ++ b) s = runOps b (runOps a s) :=
  List.foldl_append _ _ _ _

/-- What one `checkout` step does to the combined state: pop the last idle
instance (if any; the empty case default-constructs) and record the cleared
instance as checked out. -/
theorem stepOp_checkout_eq {T : Type} [Clearable T] [Inhabited T] (s : SysState T) :
    stepOp PoolOp.checkout s =
      { pool := ⟨s.pool.vacant.dropLast⟩,
        outs := Clearable.clear (s.pool.vacant.getLast?.getD default) :: s.outs } := by
  simp [stepOp, Pool.getItem, innerAccess]

/-- `m` consecutive checkouts remove `m` idle instances (truncated at 0)
and add exactly `m` checked-out instances. -/
theorem runOps_checkouts {T : Type} [Clearable T] [Inhabited T]
    (m : Nat) (s : SysState T) :
    (runOps (List.replicate m PoolOp.checkout) s).pool.vacant.length =
      s.pool.vacant.length - m ∧
    (runOps (List.replicate m PoolOp.checkout) s).outs.length = s.outs.length + m := by
  induction m generalizing s with
  | zero => simp [runOps]
  | succ n ih =>
    rw [List.replicate_succ]
    have hstep : runOps (PoolOp.checkout :: List.replicate n PoolOp.checkout) s =
        runOps (List.replicate n PoolOp.checkout) (stepOp PoolOp.checkout s) := rfl
    rw [hstep, stepOp_checkout_eq]
    have h := ih (⟨⟨s.pool.vacant.dropLast⟩,
      Clearable.clear (s.pool.vacant.getLast?.getD default) :: s.outs⟩ : SysState T)
    simp only [List.length_dropLast, List.length_cons] at h
    exact ⟨by rw [h.1]; omega, by rw [h.2]; omega⟩

/-- `m` consecutive returns, with at least `m` handles outstanding, push
back `m` cleared instances and remove exactly `m` checked-out ones. -/
theorem runOps_rets {T : Type} [Clearable T] [Inhabited T]
    (m : Nat) (s : SysState T) (hm : m ≤ s.outs.length) :
    (runOps (List.replicate m PoolOp.ret) s).pool.vacant.length =
      s.pool.vacant.length + m ∧
    (runOps (List.replicate m PoolOp.ret) s).outs.length = s.outs.length - m := by
  induction m generalizing s with
  | zero => simp [runOps]
  | succ n ih =>
    rw [List.replicate_succ]
    cases houts : s.outs with
    | nil => rw [houts] at hm; cases hm
    | cons x rest =>
      rw [houts] at hm
      simp only [List.length_cons] at hm
      have hone : stepOp PoolOp.ret s =
          { pool := ⟨s.pool.vacant ++ [Clearable.clear x]⟩, outs := rest } := by
        simp [stepOp, houts, Pooled.drop, innerAccess]
      have hstep : runOps (PoolOp.ret :: List.replicate n PoolOp.ret) s =
          runOps (List.replicate n PoolOp.ret) (stepOp PoolOp.ret s) := rfl
      rw [hstep, hone]
      have h := ih (⟨⟨s.pool.vacant ++ [Clearable.clear x]⟩, rest⟩ : SysState T)
        (Nat.le_of_succ_le_succ hm)
      refine ⟨?_, ?_⟩
      · rw [h.1]
        simp only [List.length_append, List.length_singleton]
        omega
      · rw [h.2]
        simp only [List.length_cons]
        omega

/-- Over an admissible interleaving — every checkout pops, every return has
an outstanding handle — the idle count plus the checked-out count is
conserved step by step. -/
theorem measure_runOps {T : Type} [Clearable T] [Inhabited T]
    (ops : List PoolOp) (s : SysState T) (h : opsAdmissible ops s = true) :
    SysState.measureOf (runOps ops s) = SysState.measureOf s := by
  induction ops generalizing s with
  | nil => rfl
  | cons op rest ih =>
    have hstep : runOps (op :: rest) s = runOps rest (stepOp op s) := rfl
    cases op with
    | checkout =>
      replace h : (!s.pool.vacant.isEmpty &&
          opsAdmissible rest (stepOp PoolOp.checkout s)) = true := h
      rw [Bool.and_eq_true] at h
      have hne : s.pool.vacant ≠ [] := by
        have := h.1
        simpa using this
      have hpos : 0 < s.pool.vacant.length := List.length_pos.mpr hne
      rw [hstep, ih (stepOp PoolOp.checkout s) h.2, stepOp_checkout_eq]
      simp only [SysState.measureOf, List.length_dropLast, List.length_cons]
      omega
    | ret =>
      replace h : (!s.outs.isEmpty && opsAdmissible rest (stepOp PoolOp.ret s)) = true := h
      rw [Bool.and_eq_true] at h
      rw [hstep, ih (stepOp PoolOp.ret s) h.2]
      cases houts : s.outs with
      | nil =>
        rw [houts] at h
        simp at h
      | cons x rest2 =>
        have hone : stepOp PoolOp.ret s =
            { pool := ⟨s.pool.vacant ++ [Clearable.clear x]⟩, outs := rest2 } := by
          simp [stepOp, houts, Pooled.drop, innerAccess]
        rw [hone]
        simp only [SysState.measureOf, List.length_append, houts, List.length_cons,
          List.length_singleton, List.length_nil]
        omega

/-- C5 (amended): across any admissible single-threaded interleaving of
checkouts and returns — all accesses succeeding, every return matched by an
outstanding handle, and every checkout finding the idle sequence non-empty —
the sum `pool_size() + checked_out_count` is invariant, and `pool_size()`
equals the initial sum minus the number currently checked out (so it drops
by exactly the number checked out).  The non-emptiness proviso is necessary:
see the counterexample for a checkout from an empty idle sequence. -/
theorem conservation {T : Type} [Clearable T] [Inhabited T]
    (ops : List PoolOp) (s : SysState T) (h : opsAdmissible ops s = true) :
    SysState.measureOf (runOps ops s) = SysState.measureOf s ∧
    Pool.pool_size (runOps ops s).pool true =
      some (s.pool.vacant.length + s.outs.length - (runOps ops s).outs.length) := by
  have hm := measure_runOps ops s h
  refine ⟨hm, ?_⟩
  rw [pool_size_ok, Option.some_inj]
  simp only [SysState.measureOf] at hm
  omega

set_option maxHeartbeats 1600000 in
/-- Witness for C5 on a one-instance pool: one checkout then one return. -/
theorem conservation_holds :
    SysState.measureOf (runOps [PoolOp.checkout, PoolOp.ret]
      (⟨⟨[⟨[], 0⟩]⟩, []⟩ : SysState (RVec Nat))) =
      SysState.measureOf (⟨⟨[⟨[], 0⟩]⟩, []⟩ : SysState (RVec Nat)) ∧
    Pool.pool_size (runOps [PoolOp.checkout, PoolOp.ret]
      (⟨⟨[⟨[], 0⟩]⟩, []⟩ : SysState (RVec Nat))).pool true =
      some ((⟨⟨[⟨[], 0⟩]⟩, []⟩ : SysState (RVec Nat)).pool.vacant.length +
        (⟨⟨[⟨[], 0⟩]⟩, []⟩ : SysState (RVec Nat)).outs.length -
        (runOps [PoolOp.checkout, PoolOp.ret]
          (⟨⟨[⟨[], 0⟩]⟩, []⟩ : SysState (RVec Nat))).outs.length) :=
  conservation [PoolOp.checkout, PoolOp.ret] ⟨⟨[⟨[], 0⟩]⟩, []⟩ (by decide)

set_option maxHeartbeats 1600000 in
/-- C5 counterexample: a single successful checkout from an EMPTY idle
sequence default-constructs a fresh instance, so one instance is checked
out while `pool_size` did not decrease at all: the sum
`pool_size + checked_out` grows from 0 to 1 and is not invariant, refuting
the claim as stated. -/
theorem conservation_fails :
    (runOps [PoolOp.checkout] (⟨⟨[]⟩, []⟩ : SysState (RVec Nat))).outs.length = 1 ∧
    SysState.measureOf (runOps [PoolOp.checkout] (⟨⟨[]⟩, []⟩ : SysState (RVec Nat))) ≠
      SysState.measureOf (⟨⟨[]⟩, []⟩ : SysState (RVec Nat)) ∧
    (⟨⟨[]⟩, []⟩ : SysState (RVec Nat)).pool.vacant.length ≠
      (runOps [PoolOp.checkout] (⟨⟨[]⟩, []⟩ : SysState (RVec Nat))).pool.vacant.length +
        (runOps [PoolOp.checkout] (⟨⟨[]⟩, []⟩ : SysState (RVec Nat))).outs.length := by
  decide

/-- C7: `prewarm` acquires access once and pushes exactly `count` freshly
default-constructed instances; on access failure it propagates
`AccessError`.  After `prewarm n` on an empty pool, `pool_size` is exactly
`n`, and checking out `m ≤ n` instances then dropping them all restores
`pool_size` to `n`. -/
theorem prewarm_spec {T : Type} [Clearable T] [Inhabited T]
    (p : PoolState T) (c n m : Nat) (hm : m ≤ n) :
    Pool.prewarm p c true =
      (Except.ok (), ⟨p.vacant ++ List.replicate c (default : T)⟩) ∧
    (Pool.prewarm p c false).1 = Except.error AccessError.accessError ∧
    Pool.pool_size (Pool.prewarm (⟨[]⟩ : PoolState T) n true).2 true = some n ∧
    Pool.pool_size (runOps (List.replicate m PoolOp.checkout ++ List.replicate m PoolOp.ret)
      ⟨(Pool.prewarm (⟨[]⟩ : PoolState T) n true).2, []⟩).pool true = some n := by
  have hpre : (Pool.prewarm (⟨[]⟩ : PoolState T) n true).2 =
      ⟨List.replicate n (default : T)⟩ := by
    simp [Pool.prewarm, innerAccess, prewarmLoop_eq]
  refine ⟨?_, rfl, ?_, ?_⟩
  · simp [Pool.prewarm, innerAccess, prewarmLoop_eq]
  · rw [hpre, pool_size_ok]
    simp
  · rw [hpre, runOps_append, pool_size_ok, Option.some_inj]
    have hA := runOps_checkouts m
      (⟨⟨List.replicate n (default : T)⟩, []⟩ : SysState T)
    have hB := runOps_rets m
      (runOps (List.replicate m PoolOp.checkout)
        (⟨⟨List.replicate n (default : T)⟩, []⟩ : SysState T))
      (by rw [hA.2]; omega)
    rw [hB.1, hA.1]
    simp only [List.length_replicate]
    omega

/-- Witness for C7: prewarm 3 instances into an empty pool, check out 2,
return both. -/
theorem prewarm_spec_holds :
    Pool.prewarm (⟨[]⟩ : PoolState (RVec Nat)) 2 true =
      (Except.ok (), ⟨[] ++ List.replicate 2 (default : RVec Nat)⟩) ∧
    (Pool.prewarm (⟨[]⟩ : PoolState (RVec Nat)) 2 false).1 =
      Except.error AccessError.accessError ∧
    Pool.pool_size (Pool.prewarm (⟨[]⟩ : PoolState (RVec Nat)) 3 true).2 true = some 3 ∧
    Pool.pool_size (runOps (List.replicate 2 PoolOp.checkout ++ List.replicate 2 PoolOp.ret)
      ⟨(Pool.prewarm (⟨[]⟩ : PoolState (RVec Nat)) 3 true).2, []⟩).pool true = some 3 :=
  prewarm_spec ⟨[]⟩ 2 3 2 (by decide)

end CollectionPool
